import Mathlib

/-!
# Verification of the ssh-config-manager repository

The repository's single source file, `src/ssh_manager.py`, is a CLI over an
SSH-config document model.  The document model itself (parsing, serialization,
`hosts`, `host`, `add`, `set`, `remove`, `write`) lives in the external
`sshconf` library and is not part of `src/`; those operations are modelled
from the spec (sections 3, 4.1, 4.2), as marked on each definition.  The CLI
command functions (`add_entry`, `list_entries`, `search_entries`, `show_host`,
`edit_entry`, `delete_entry`) and the load/save helpers are translated from
`src/ssh_manager.py`.

The on-disk file content is modelled as its list of lines (`List String`);
the file system is a `World` holding `none` when the config file is absent.
Interactive input (the delete confirmation) and CLI arguments are passed as
explicit arguments.  `sys.exit(1)` is modelled as a result with exit code 1
and no further effects, which is faithful because in the source every
`sys.exit(1)` happens before any write.
-/

namespace SshManager

/-- Lowercase every character of a character list (models Python `.lower()`
on the ASCII directive names involved). -/
def lowerChars (l : List Char) : List Char := l.map Char.toLower

/-- Python `s.lower()` on a string (ASCII case folding suffices for the
directive names and the `y`/`n` confirmation answers involved). -/
def lowerStr (s : String) : String := ⟨lowerChars s.data⟩

/-- Strip leading and trailing whitespace from a character list (models the
trimming of directive lines described in spec section 4.1). -/
def trimChars (l : List Char) : List Char :=
  ((l.dropWhile Char.isWhitespace).reverse.dropWhile Char.isWhitespace).reverse

/-- One `Host` block of the config file: the alias, the ordered mapping from
lowercase directive name to value, and any malformed lines preserved opaquely
inside the block.  Modelled from the spec: `HostEntry`, section 3. -/
structure HostEntry where
  hostAlias : String
  directives : List (String × String)
  rawLines : List String
deriving Repr, DecidableEq

/-- A piece of content seen before the first `Host` line (or pending for the
next block): either a recognized `key value` directive line or an opaque
malformed/blank line.  Modelled from the spec: preserved "raw segments" and
global directives of the document preamble, section 3. -/
inductive PendItem where
  | kv (key value : String)
  | rawLine (s : String)
deriving Repr, DecidableEq

/-- The whole config file: preamble content before the first `Host` line plus
the ordered sequence of host blocks.  Modelled from the spec:
`ConfigDocument`, section 3. -/
structure ConfigDocument where
  preamble : List PendItem
  hosts : List HostEntry
deriving Repr, DecidableEq

/-- The classification of one physical line of the file. -/
inductive Line where
  | hostStart (a : String)
  | directive (key value : String)
  | rawText (s : String)
deriving Repr, DecidableEq

/-- Classify one line.  Modelled from the spec, section 4.1: a line whose
first token is `Host` (directive names are case-insensitive) starts a block
with the remainder as alias; otherwise a `<Directive> <value>` line yields a
directive with lowercased name and trimmed value; a line with no
directive/value split is opaque raw text. -/
def classifyLine (s : String) : Line :=
  let t := trimChars s.data
  let key := t.takeWhile (fun c => !c.isWhitespace)
  let rest := trimChars (t.dropWhile (fun c => !c.isWhitespace))
  if key.isEmpty || rest.isEmpty then .rawText s
  else if lowerChars key = "host".data then .hostStart (String.mk rest)
  else .directive (String.mk (lowerChars key)) (String.mk rest)

/-- The directive pair of a pending item, if it is one. -/
def kvOf : PendItem → Option (String × String)
  | .kv k v => some (k, v)
  | .rawLine _ => none

/-- The opaque line of a pending item, if it is one. -/
def rawOf : PendItem → Option String
  | .kv _ _ => none
  | .rawLine s => some s

/-- Parse the lines of the file into (content before the first `Host` line,
host blocks).  Modelled from the spec, section 4.1: each `Host <alias>` line
starts a block owning the subsequent directive and opaque lines until the
next `Host` line or end of file. -/
def parseLinesAux : List String → List PendItem × List HostEntry
  | [] => ([], [])
  | l :: ls =>
    let r := parseLinesAux ls
    match classifyLine l with
    | .hostStart a => ([], ⟨a, r.1.filterMap kvOf, r.1.filterMap rawOf⟩ :: r.2)
    | .directive k v => (PendItem.kv k v :: r.1, r.2)
    | .rawText s => (PendItem.rawLine s :: r.1, r.2)

/-- Parse a file content (list of lines) into a `ConfigDocument`.
Modelled from the spec: the parse contract of section 4.1. -/
def parseConfig (ls : List String) : ConfigDocument :=
  ⟨(parseLinesAux ls).1, (parseLinesAux ls).2⟩

/-- Serialize one preamble item back to a line. -/
def pendLine : PendItem → String
  | .kv k v => k ++ " " ++ v
  | .rawLine s => s

/-- Serialize one host block: `Host <alias>` followed by its directives
indented consistently, then its preserved opaque lines.  Modelled from the
spec: the serialize contract of section 4.1. -/
def serializeEntry (e : HostEntry) : List String :=
  ("Host " ++ e.hostAlias) :: (e.directives.map (fun p => "    " ++ p.1 ++ " " ++ p.2) ++ e.rawLines)

/-- Serialize a whole document to file content (list of lines).  Modelled
from the spec: the serialize contract of section 4.1. -/
def serializeConfig (d : ConfigDocument) : List String :=
  d.preamble.map pendLine ++ (d.hosts.map serializeEntry).flatten

/-- The empty document (`empty_ssh_config_file()`).  Modelled from the spec:
`ConfigDocument` "constructed empty (file absent)", section 3. -/
def emptyDoc : ConfigDocument := ⟨[], []⟩

/-- `config.hosts()`: the aliases in document order.  Modelled from the
spec: `listHosts` produces the sequence in document order, section 4.2. -/
def ConfigDocument.hostsList (d : ConfigDocument) : List String :=
  d.hosts.map (·.hostAlias)

/-- Look a directive up in a directive list. -/
def lookupDirective (dirs : List (String × String)) (k : String) : Option String :=
  (dirs.find? (fun p => p.1 = k)).map (·.2)

/-- A directive's value with a default, as Python `host_data.get(k, dflt)`. -/
def getDirD (dirs : List (String × String)) (k dflt : String) : String :=
  (lookupDirective dirs k).getD dflt

/-- `config.host(a)`: the directive mapping of the entry with alias `a`
(empty when absent).  Modelled from the spec: `getHost`, section 4.2. -/
def ConfigDocument.hostData (d : ConfigDocument) (a : String) : List (String × String) :=
  match d.hosts.find? (fun e => e.hostAlias = a) with
  | some e => e.directives
  | none => []

/-- `config.add(a, **params)`: append a new entry at the end of the host
sequence.  Modelled from the spec: `addHost` "appends a new HostEntry at the
end of the host sequence", section 4.2. -/
def ConfigDocument.addHost (d : ConfigDocument) (a : String)
    (params : List (String × String)) : ConfigDocument :=
  ⟨d.preamble, d.hosts ++ [⟨a, params, []⟩]⟩

/-- Update one directive list: replace the value of `k` if present, else
append the directive.  Modelled from the spec: `setField` "silently creates
the directive if absent", section 4.2. -/
def setDirective (dirs : List (String × String)) (k v : String) : List (String × String) :=
  if (dirs.find? (fun p => p.1 = k)).isSome then
    dirs.map (fun p => if p.1 = k then (k, v) else p)
  else dirs ++ [(k, v)]

/-- `config.set(a, key := v)`: update the entry with alias `a`.  Modelled
from the spec: `setField`, section 4.2. -/
def ConfigDocument.setField (d : ConfigDocument) (a k v : String) : ConfigDocument :=
  ⟨d.preamble, d.hosts.map (fun e => if e.hostAlias = a then ⟨e.hostAlias, setDirective e.directives k v, e.rawLines⟩ else e)⟩

/-- `config.remove(a)`: remove the entry with alias `a`.  Modelled from the
spec: `removeHost` "removes the entry, preserving order of all remaining
entries", section 4.2. -/
def ConfigDocument.removeHost (d : ConfigDocument) (a : String) : ConfigDocument :=
  ⟨d.preamble, d.hosts.filter (fun e => e.hostAlias ≠ a)⟩

/-- The file system as the commands see it: the content of the config file
at `SSH_CONFIG_PATH`, or `none` when the file does not exist. -/
structure World where
  file : Option (List String)
deriving Repr, DecidableEq

/-- `load_ssh_config` (src/ssh_manager.py lines 17-24): empty config when
the file does not exist, otherwise parse it. -/
def load_ssh_config (w : World) : ConfigDocument :=
  match w.file with
  | none => emptyDoc
  | some ls => parseConfig ls

/-- `save_ssh_config` (src/ssh_manager.py lines 26-30): write the document
back to the config file. -/
def save_ssh_config (_w : World) (c : ConfigDocument) : World :=
  ⟨some (serializeConfig c)⟩

/-- Outcome of one CLI command: the resulting file system, the process exit
code, and the table rows printed (presentation stripped of styling). -/
structure CmdResult where
  world : World
  exitCode : Nat
  rows : List (List String)
deriving Repr, DecidableEq

/-- The parameter dict built by `add_entry` (src/ssh_manager.py lines 46-53):
`hostname`, `user`, `port` always; `identityfile` only when `identity_file`
is truthy (not `None` and not the empty string). -/
def addParams (hostname user : String) (port : Nat) (identity_file : Option String) :
    List (String × String) :=
  [("hostname", hostname), ("user", user), ("port", toString port)] ++
    (match identity_file with
     | some f => if f = "" then [] else [("identityfile", f)]
     | none => [])

/-- `add_entry` (src/ssh_manager.py lines 32-57): exit 1 when the alias
already exists, otherwise add the new entry and save. -/
def add_entry (w : World) (host hostname user : String) (port : Nat)
    (identity_file : Option String) : CmdResult :=
  let config := load_ssh_config w
  if host ∈ config.hostsList then ⟨w, 1, []⟩
  else ⟨save_ssh_config w (config.addHost host (addParams hostname user port identity_file)), 0, []⟩

/-- The table row `list_entries` builds for one host (src/ssh_manager.py
lines 81-91). -/
def listRow (verbose : Bool) (e : HostEntry) : List String :=
  [e.hostAlias, getDirD e.directives "hostname" "N/A", getDirD e.directives "user" "N/A",
   getDirD e.directives "port" "N/A"] ++ (if verbose then [getDirD e.directives "identityfile" "N/A"] else [])

/-- `list_entries` (src/ssh_manager.py lines 59-93): print a table of all
hosts; no write, exit 0. -/
def list_entries (w : World) (verbose : Bool) : CmdResult :=
  let config := load_ssh_config w
  ⟨w, 0, config.hosts.map (listRow verbose)⟩

/-- Decidable literal substring containment on characters, as Python's
`a in b` on strings. -/
def containsSub (q : List Char) : List Char → Bool
  | [] => q.isEmpty
  | c :: s => q.isPrefixOf (c :: s) || containsSub q s

/-- The match predicate of `search_entries` (src/ssh_manager.py line 107):
the query occurs in the alias or in the `hostname` directive value (empty
string when absent). -/
def searchMatch (query : String) (e : HostEntry) : Bool :=
  containsSub query.data e.hostAlias.data ||
    containsSub query.data (getDirD e.directives "hostname" "").data

/-- The entries collected by the search loop (src/ssh_manager.py
lines 103-108), in document order. -/
def searchResults (d : ConfigDocument) (query : String) : List HostEntry :=
  d.hosts.filter (searchMatch query)

/-- `search_entries` (src/ssh_manager.py lines 95-130): print a table of the
matching hosts; no write, exit 0. -/
def search_entries (w : World) (query : String) : CmdResult :=
  let config := load_ssh_config w
  ⟨w, 0, (searchResults config query).map (fun e =>
    [e.hostAlias, getDirD e.directives "hostname" "N/A", getDirD e.directives "user" "N/A",
     getDirD e.directives "port" "N/A"])⟩

/-- `show_host` (src/ssh_manager.py lines 132-153): exit 1 when the alias is
absent, otherwise print the field/value table; no write. -/
def show_host (w : World) (host : String) : CmdResult :=
  let config := load_ssh_config w
  if host ∈ config.hostsList then
    ⟨w, 0, (config.hostData host).map (fun p => [p.1.capitalize, p.2])⟩
  else ⟨w, 1, []⟩

/-- `edit_entry` (src/ssh_manager.py lines 155-170): exit 1 when the alias
is absent, otherwise set the (lowercased) field and save. -/
def edit_entry (w : World) (host field value : String) : CmdResult :=
  let config := load_ssh_config w
  if host ∈ config.hostsList then
    ⟨save_ssh_config w (config.setField host (lowerStr field) value), 0, []⟩
  else ⟨w, 1, []⟩

/-- `delete_entry` (src/ssh_manager.py lines 172-190): exit 1 when the alias
is absent; otherwise ask for confirmation (`confirm` is the operator's
answer) and only remove and save when its lowercase form is `y`. -/
def delete_entry (w : World) (host confirm : String) : CmdResult :=
  let config := load_ssh_config w
  if host ∈ config.hostsList then
    if lowerStr confirm = "y" then
      ⟨save_ssh_config w (config.removeHost host), 0, []⟩
    else ⟨w, 0, []⟩
  else ⟨w, 1, []⟩

/-- A small concrete document used as evaluation input by the witnesses. -/
def sampleDoc : ConfigDocument :=
  ⟨[], [⟨"db1", [("hostname", "10.0.0.5"), ("user", "admin"), ("port", "2222")], []⟩,
        ⟨"web", [("hostname", "x.example.com"), ("user", "root")], []⟩]⟩

/-- A world whose config file holds the serialization of `sampleDoc`. -/
def sampleWorld : World := ⟨some (serializeConfig sampleDoc)⟩

/-- A character list starts with a non-whitespace character. -/
def headNonWS : List Char → Bool
  | [] => false
  | c :: _ => !c.isWhitespace

/-- A well-formed token (alias): non-empty, no embedded whitespace.  From the
spec, section 3: alias is a "string identifier ... no embedded whitespace"
and non-empty. -/
def wfToken (s : String) : Bool :=
  !s.data.isEmpty && s.data.all (fun c => !c.isWhitespace)

/-- A well-formed stored directive name: a non-whitespace token, already
lowercase (spec section 3: directive names are stored lowercase), and not
the block keyword `host` (a directive spelled `host` would be a modelled
`Host` line, hence is an unmodeled directive). -/
def wfKey (k : String) : Bool :=
  wfToken k && (lowerChars k.data == k.data) && k != "host"

/-- A well-formed stored directive value: non-empty, no leading or trailing
whitespace (spec section 4.1: values are trimmed), and no embedded newline
(it must fit on one line). -/
def wfValue (v : String) : Bool :=
  headNonWS v.data && headNonWS v.data.reverse && !v.data.contains '\n'

/-- A host entry with no unmodeled content: well-formed alias, well-formed
directives, no opaque lines. -/
def wfEntry (e : HostEntry) : Bool :=
  wfToken e.hostAlias && e.directives.all (fun p => wfKey p.1 && wfValue p.2) &&
    e.rawLines.isEmpty

/-- A document "with no unmodeled directives" (claim C1): empty preamble and
well-formed host entries only. -/
def wfDoc (d : ConfigDocument) : Bool :=
  d.preamble.isEmpty && d.hosts.all wfEntry

end SshManager

namespace SshManager

theorem strData_append (s t : String) : (s ++ t).data = s.data ++ t.data := by
  cases s; cases t; rfl

theorem dropWhile_ws_of_headNonWS (l : List Char) (h : headNonWS l = true) :
    l.dropWhile Char.isWhitespace = l := by
  cases l with
  | nil => simp [headNonWS] at h
  | cons c l =>
      simp only [headNonWS, Bool.not_eq_true'] at h
      simp [List.dropWhile_cons, h]

theorem headNonWS_append (l r : List Char) (h : headNonWS l = true) :
    headNonWS (l ++ r) = true := by
  cases l with
  | nil => simp [headNonWS] at h
  | cons c l => simpa [headNonWS] using h

theorem headNonWS_of_all (l : List Char) (hne : l ≠ [])
    (h : ∀ c ∈ l, c.isWhitespace = false) : headNonWS l = true := by
  cases l with
  | nil => exact absurd rfl hne
  | cons c l => simp [headNonWS, h c (List.mem_cons_self c l)]

theorem wfToken_ne_nil (s : String) (h : wfToken s = true) : s.data ≠ [] := by
  simp only [wfToken, Bool.and_eq_true, Bool.not_eq_true'] at h
  simpa [List.isEmpty_iff] using h.1

theorem wfToken_all (s : String) (h : wfToken s = true) :
    ∀ c ∈ s.data, c.isWhitespace = false := by
  simp only [wfToken, Bool.and_eq_true, List.all_eq_true] at h
  intro c hc
  simpa using h.2 c hc

theorem wfToken_headNonWS (s : String) (h : wfToken s = true) :
    headNonWS s.data = true :=
  headNonWS_of_all _ (wfToken_ne_nil s h) (wfToken_all s h)

theorem wfToken_headNonWS_rev (s : String) (h : wfToken s = true) :
    headNonWS s.data.reverse = true := by
  refine headNonWS_of_all _ ?_ ?_
  · simpa using wfToken_ne_nil s h
  · intro c hc
    exact wfToken_all s h c (List.mem_reverse.mp hc)

theorem trimChars_of_headNonWS (l : List Char) (h1 : headNonWS l = true)
    (h2 : headNonWS l.reverse = true) : trimChars l = l := by
  unfold trimChars
  rw [dropWhile_ws_of_headNonWS l h1, dropWhile_ws_of_headNonWS l.reverse h2,
    List.reverse_reverse]

theorem takeWhile_token (l r : List Char) (h : ∀ c ∈ l, c.isWhitespace = false) :
    (l ++ ' ' :: r).takeWhile (fun c => !c.isWhitespace) = l := by
  induction l with
  | nil => simp [List.takeWhile_cons]
  | cons a l ih =>
      have ha := h a (List.mem_cons_self a l)
      simp only [List.cons_append, List.takeWhile_cons, ha, Bool.not_false, if_true]
      rw [ih fun c hc => h c (List.mem_cons_of_mem a hc)]

theorem dropWhile_token (l r : List Char) (h : ∀ c ∈ l, c.isWhitespace = false) :
    (l ++ ' ' :: r).dropWhile (fun c => !c.isWhitespace) = ' ' :: r := by
  induction l with
  | nil => simp [List.dropWhile_cons]
  | cons a l ih =>
      have ha := h a (List.mem_cons_self a l)
      simp only [List.cons_append, List.dropWhile_cons, ha, Bool.not_false, if_true]
      exact ih fun c hc => h c (List.mem_cons_of_mem a hc)

theorem trim_mid (k v : List Char) (hk : headNonWS k = true)
    (hv : headNonWS v.reverse = true) : trimChars (k ++ ' ' :: v) = k ++ ' ' :: v := by
  refine trimChars_of_headNonWS _ (headNonWS_append _ _ hk) ?_
  have : (k ++ ' ' :: v).reverse = v.reverse ++ ' ' :: k.reverse := by
    simp
  rw [this]
  exact headNonWS_append _ _ hv

theorem trim_cons_space (v : List Char) (h1 : headNonWS v = true)
    (h2 : headNonWS v.reverse = true) : trimChars (' ' :: v) = v := by
  unfold trimChars
  have hsp : (' ' : Char).isWhitespace = true := by decide
  rw [List.dropWhile_cons]
  simp only [hsp, if_true]
  rw [dropWhile_ws_of_headNonWS v h1, dropWhile_ws_of_headNonWS v.reverse h2,
    List.reverse_reverse]

theorem dropWhile_ws_spaces (l : List Char) :
    List.dropWhile Char.isWhitespace ([' ', ' ', ' ', ' '] ++ l) =
      List.dropWhile Char.isWhitespace l := by
  have hsp : (' ' : Char).isWhitespace = true := by decide
  simp [List.dropWhile_cons, hsp]

theorem trimChars_spaces (l : List Char) :
    trimChars ([' ', ' ', ' ', ' '] ++ l) = trimChars l := by
  unfold trimChars
  rw [dropWhile_ws_spaces]

theorem wfKey_parts (k : String) (hk : wfKey k = true) :
    wfToken k = true ∧ lowerChars k.data = k.data ∧ k.data ≠ "host".data := by
  simp only [wfKey, Bool.and_eq_true, beq_iff_eq, bne_iff_ne, ne_eq] at hk
  exact ⟨hk.1.1, hk.1.2, fun h => hk.2 (String.ext h)⟩

theorem wfValue_parts (v : String) (hv : wfValue v = true) :
    headNonWS v.data = true ∧ headNonWS v.data.reverse = true := by
  simp only [wfValue, Bool.and_eq_true] at hv
  exact ⟨hv.1.1, hv.1.2⟩

theorem headNonWS_ne_nil (l : List Char) (h : headNonWS l = true) : l ≠ [] := by
  cases l with
  | nil => simp [headNonWS] at h
  | cons c l => exact List.cons_ne_nil c l

theorem isEmpty_false_of_ne_nil {l : List Char} (h : l ≠ []) : l.isEmpty = false := by
  cases l with
  | nil => exact absurd rfl h
  | cons c l => rfl

theorem classifyLine_directive (k v : String) (hk : wfKey k = true)
    (hv : wfValue v = true) :
    classifyLine ("    " ++ k ++ " " ++ v) = Line.directive k v := by
  obtain ⟨hktok, hklow, hkne⟩ := wfKey_parts k hk
  obtain ⟨hv1, hv2⟩ := wfValue_parts v hv
  have hall := wfToken_all k hktok
  have hkh := wfToken_headNonWS k hktok
  have hdata : ("    " ++ k ++ " " ++ v).data =
      [' ', ' ', ' ', ' '] ++ (k.data ++ ' ' :: v.data) := by
    simp [strData_append, show ("    " : String).data = [' ', ' ', ' ', ' '] from rfl,
      show (" " : String).data = [' '] from rfl]
  have hke : (k.data).isEmpty = false := isEmpty_false_of_ne_nil (wfToken_ne_nil k hktok)
  have hve : (v.data).isEmpty = false := isEmpty_false_of_ne_nil (headNonWS_ne_nil _ hv1)
  simp only [classifyLine]
  rw [hdata, trimChars_spaces, trim_mid k.data v.data hkh hv2,
    takeWhile_token k.data v.data hall, dropWhile_token k.data v.data hall,
    trim_cons_space v.data hv1 hv2, hklow]
  simp [hke, hve, hkne]

theorem classifyLine_hostStart (a : String) (ha : wfToken a = true) :
    classifyLine ("Host " ++ a) = Line.hostStart a := by
  have hah := wfToken_headNonWS a ha
  have har := wfToken_headNonWS_rev a ha
  have hdata : ("Host " ++ a).data = ['H', 'o', 's', 't'] ++ ' ' :: a.data := by
    rw [strData_append]; rfl
  have hae : (a.data).isEmpty = false := isEmpty_false_of_ne_nil (wfToken_ne_nil a ha)
  simp only [classifyLine]
  rw [hdata, trim_mid ['H', 'o', 's', 't'] a.data (by decide) har,
    takeWhile_token ['H', 'o', 's', 't'] a.data (by decide),
    dropWhile_token ['H', 'o', 's', 't'] a.data (by decide),
    trim_cons_space a.data hah har]
  simp [hae, show lowerChars ['H', 'o', 's', 't'] = "host".data from by decide]

theorem parseLinesAux_dirLines (dirs : List (String × String)) (rest : List String)
    (h : ∀ p ∈ dirs, wfKey p.1 = true ∧ wfValue p.2 = true) :
    parseLinesAux (dirs.map (fun p => "    " ++ p.1 ++ " " ++ p.2) ++ rest) =
      (dirs.map (fun p => PendItem.kv p.1 p.2) ++ (parseLinesAux rest).1,
        (parseLinesAux rest).2) := by
  induction dirs with
  | nil => simp
  | cons p dirs ih =>
      have hp := h p (List.mem_cons_self p dirs)
      have ih' := ih fun q hq => h q (List.mem_cons_of_mem p hq)
      simp only [List.map_cons, List.cons_append, parseLinesAux,
        classifyLine_directive p.1 p.2 hp.1 hp.2, List.append_eq]
      rw [ih']

theorem filterMap_kvOf_kv (l : List (String × String)) :
    List.filterMap (kvOf ∘ fun p => PendItem.kv p.1 p.2) l = l := by
  induction l with
  | nil => rfl
  | cons p l ih => simp [List.filterMap_cons, Function.comp, kvOf, ih]

theorem parseLinesAux_blocks (hs : List HostEntry)
    (h : ∀ e ∈ hs, wfEntry e = true) :
    parseLinesAux ((hs.map serializeEntry).flatten) = ([], hs) := by
  induction hs with
  | nil => rfl
  | cons e hs ih =>
      obtain ⟨ea, ed, er⟩ := e
      have he := h ⟨ea, ed, er⟩ (List.mem_cons_self _ hs)
      have hrec := ih fun x hx => h x (List.mem_cons_of_mem _ hx)
      simp only [wfEntry, Bool.and_eq_true, List.all_eq_true] at he
      obtain ⟨⟨hatok, hdirs⟩, hraw⟩ := he
      have hrawnil : er = [] := by simpa [List.isEmpty_iff] using hraw
      subst hrawnil
      simp only [List.map_cons, List.flatten_cons, serializeEntry, List.append_nil,
        List.cons_append, parseLinesAux, classifyLine_hostStart ea hatok,
        List.append_eq]
      rw [parseLinesAux_dirLines ed _ hdirs, hrec]
      simp [kvOf, rawOf, List.filterMap_map, Function.comp, filterMap_kvOf_kv]

/-- Claim C1: for every `ConfigDocument` with no unmodeled directives
(`wfDoc`), parsing the serialization yields the same document — same
aliases, same directive values, same order — and hence, for any file-system
state, a `save` followed by `load` yields that same document. -/
theorem c1_parse_serialize_roundtrip (d : ConfigDocument) (h : wfDoc d = true) :
    parseConfig (serializeConfig d) = d ∧
      ∀ w : World, load_ssh_config (save_ssh_config w d) = d := by
  obtain ⟨pre, hs⟩ := d
  simp only [wfDoc, Bool.and_eq_true, List.all_eq_true] at h
  have hpre : pre = [] := by simpa [List.isEmpty_iff] using h.1
  subst hpre
  have hparse : parseConfig (serializeConfig ⟨[], hs⟩) = ⟨[], hs⟩ := by
    simp only [serializeConfig, List.map_nil, List.nil_append]
    simp only [parseConfig, parseLinesAux_blocks hs fun e he => h.2 e he]
  exact ⟨hparse, fun w => by
    simp only [load_ssh_config, save_ssh_config, hparse]⟩

/-- Witness for C1 at the concrete document `sampleDoc`. -/
theorem c1_parse_serialize_roundtrip_witness :
    wfDoc sampleDoc = true ∧ parseConfig (serializeConfig sampleDoc) = sampleDoc ∧
      load_ssh_config (save_ssh_config ⟨none⟩ sampleDoc) = sampleDoc :=
  ⟨by decide, (c1_parse_serialize_roundtrip sampleDoc (by decide)).1,
    (c1_parse_serialize_roundtrip sampleDoc (by decide)).2 ⟨none⟩⟩

/-- Claim C2: `add` on an alias already present (case-sensitive exact
membership test of `add_entry`) exits with status 1 and leaves the
file-system state — hence the on-disk file and the document it holds —
unchanged. -/
theorem c2_add_duplicate_fails (w : World) (host hostname user : String)
    (port : Nat) (identity_file : Option String)
    (h : host ∈ (load_ssh_config w).hostsList) :
    add_entry w host hostname user port identity_file = ⟨w, 1, []⟩ := by
  simp [add_entry, h]

/-- Witness for C2: adding `db1` over `sampleWorld`, which already has it. -/
theorem c2_add_duplicate_fails_witness :
    "db1" ∈ (load_ssh_config sampleWorld).hostsList ∧
      add_entry sampleWorld "db1" "10.0.0.5" "admin" 2222 none =
        ⟨sampleWorld, 1, []⟩ :=
  ⟨by decide,
    c2_add_duplicate_fails sampleWorld "db1" "10.0.0.5" "admin" 2222 none (by decide)⟩

/-- Claim C3: `show`, `edit` and `delete` on an absent alias all exit with
status 1 (nonzero) and leave the file-system state unchanged. -/
theorem c3_not_found_fails (w : World) (host field value confirm : String)
    (h : host ∉ (load_ssh_config w).hostsList) :
    show_host w host = ⟨w, 1, []⟩ ∧ edit_entry w host field value = ⟨w, 1, []⟩ ∧
      delete_entry w host confirm = ⟨w, 1, []⟩ := by
  refine ⟨?_, ?_, ?_⟩ <;> simp [show_host, edit_entry, delete_entry, h]

/-- Witness for C3: alias `nope` is absent from `sampleWorld`. -/
theorem c3_not_found_fails_witness :
    "nope" ∉ (load_ssh_config sampleWorld).hostsList ∧
      (show_host sampleWorld "nope" = ⟨sampleWorld, 1, []⟩ ∧
        edit_entry sampleWorld "nope" "port" "2200" = ⟨sampleWorld, 1, []⟩ ∧
        delete_entry sampleWorld "nope" "y" = ⟨sampleWorld, 1, []⟩) :=
  ⟨by decide, c3_not_found_fails sampleWorld "nope" "port" "2200" "y" (by decide)⟩

/-- Claim C4: `add` on a fresh alias appends exactly one new entry at the
end of the host sequence, whose `hostname`, `user` and `port` directives are
always set to the given values (`port` as its string form) and whose
`identityfile` directive is set exactly when a non-empty identity file was
provided. -/
theorem c4_add_appends (w : World) (host hostname user : String) (port : Nat)
    (identity_file : Option String)
    (h : host ∉ (load_ssh_config w).hostsList) :
    add_entry w host hostname user port identity_file =
      ⟨save_ssh_config w ⟨(load_ssh_config w).preamble,
        (load_ssh_config w).hosts ++
          [⟨host, addParams hostname user port identity_file, []⟩]⟩, 0, []⟩ ∧
    lookupDirective (addParams hostname user port identity_file) "hostname" =
      some hostname ∧
    lookupDirective (addParams hostname user port identity_file) "user" = some user ∧
    lookupDirective (addParams hostname user port identity_file) "port" =
      some (toString port) ∧
    lookupDirective (addParams hostname user port identity_file) "identityfile" =
      identity_file.filter (fun f => f != "") := by
  refine ⟨by simp [add_entry, h, ConfigDocument.addHost], ?_, ?_, ?_, ?_⟩ <;>
    cases identity_file with
    | none => simp [addParams, lookupDirective, List.find?]
    | some f =>
        by_cases hf : f = "" <;>
          simp [addParams, lookupDirective, List.find?, Option.filter, hf]

/-- Witness for C4: adding fresh alias `new1` (with an identity file) over
`sampleWorld`. -/
theorem c4_add_appends_witness :
    "new1" ∉ (load_ssh_config sampleWorld).hostsList ∧
      add_entry sampleWorld "new1" "10.0.0.9" "bob" 2200 (some "k.pem") =
        ⟨save_ssh_config sampleWorld ⟨(load_ssh_config sampleWorld).preamble,
          (load_ssh_config sampleWorld).hosts ++
            [⟨"new1", addParams "10.0.0.9" "bob" 2200 (some "k.pem"), []⟩]⟩, 0, []⟩ ∧
      lookupDirective (addParams "10.0.0.9" "bob" 2200 (some "k.pem")) "port" =
        some "2200" :=
  ⟨by decide,
    (c4_add_appends sampleWorld "new1" "10.0.0.9" "bob" 2200 (some "k.pem") (by decide)).1,
    (c4_add_appends sampleWorld "new1" "10.0.0.9" "bob" 2200 (some "k.pem")
      (by decide)).2.2.2.1⟩

theorem containsSub_iff (q s : List Char) : containsSub q s = true ↔ q <:+: s := by
  induction s with
  | nil =>
      simp [containsSub, List.isEmpty_iff, List.infix_nil]
  | cons c s ih =>
      simp [containsSub, Bool.or_eq_true, List.isPrefixOf_iff_prefix, ih,
        List.infix_cons_iff]

/-- Claim C5: the search loop keeps exactly the hosts whose alias or whose
`hostname` directive value (the empty string when absent) contains the query
as a literal, case-sensitive substring, and the result is a sublist of the
host sequence, i.e. in document order. -/
theorem c5_search_semantics (d : ConfigDocument) (query : String) :
    (∀ e : HostEntry, e ∈ searchResults d query ↔
        e ∈ d.hosts ∧ (query.data <:+: e.hostAlias.data ∨
          query.data <:+: (getDirD e.directives "hostname" "").data)) ∧
      (searchResults d query).Sublist d.hosts := by
  constructor
  · intro e
    simp only [searchResults, List.mem_filter, searchMatch, Bool.or_eq_true,
      containsSub_iff]
  · exact List.filter_sublist _

/-- Claim C6: removing an alias that occurs exactly once removes exactly
that entry, preserving the relative order of all remaining entries. -/
theorem c6_remove_exactly_one (d : ConfigDocument) (a : String)
    (l₁ l₂ : List HostEntry) (e : HostEntry)
    (hd : d.hosts = l₁ ++ e :: l₂) (he : e.hostAlias = a)
    (h1 : ∀ x ∈ l₁, x.hostAlias ≠ a) (h2 : ∀ x ∈ l₂, x.hostAlias ≠ a) :
    (d.removeHost a).hosts = l₁ ++ l₂ := by
  have hkeep : ∀ (l : List HostEntry), (∀ x ∈ l, x.hostAlias ≠ a) →
      l.filter (fun x => x.hostAlias ≠ a) = l := fun l hl =>
    List.filter_eq_self.mpr fun x hx => by simp [hl x hx]
  simp only [ConfigDocument.removeHost, hd, List.filter_append, List.filter_cons]
  rw [hkeep l₁ h1, hkeep l₂ h2]
  simp [he]

/-- Witness for C6: removing `db1` from `sampleDoc`. -/
theorem c6_remove_exactly_one_witness :
    sampleDoc.hosts =
      [] ++ (⟨"db1", [("hostname", "10.0.0.5"), ("user", "admin"), ("port", "2222")], []⟩ :
        HostEntry) :: [⟨"web", [("hostname", "x.example.com"), ("user", "root")], []⟩] ∧
      (sampleDoc.removeHost "db1").hosts =
        [] ++ [⟨"web", [("hostname", "x.example.com"), ("user", "root")], []⟩] :=
  ⟨by decide,
    c6_remove_exactly_one sampleDoc "db1" []
      [⟨"web", [("hostname", "x.example.com"), ("user", "root")], []⟩]
      ⟨"db1", [("hostname", "10.0.0.5"), ("user", "admin"), ("port", "2222")], []⟩
      (by decide) (by decide) (by decide) (by decide)⟩

/-- Claim C7: when the config file does not exist, `load` returns the empty
document rather than failing, and listing that document yields no hosts and
no rows, with exit status 0. -/
theorem c7_load_missing_file (w : World) (verbose : Bool) (hw : w.file = none) :
    load_ssh_config w = emptyDoc ∧ (load_ssh_config w).hostsList = [] ∧
      list_entries w verbose = ⟨w, 0, []⟩ := by
  obtain ⟨f⟩ := w
  cases hw
  simp [load_ssh_config, emptyDoc, list_entries, ConfigDocument.hostsList]

/-- Witness for C7: the world with no config file. -/
theorem c7_load_missing_file_witness :
    (World.mk none).file = none ∧
      (load_ssh_config ⟨none⟩ = emptyDoc ∧ (load_ssh_config ⟨none⟩).hostsList = [] ∧
        list_entries ⟨none⟩ false = ⟨⟨none⟩, 0, []⟩) :=
  ⟨rfl, c7_load_missing_file ⟨none⟩ false rfl⟩

/-- Claim C8: for an existing alias, when the operator's confirmation answer
does not lowercase to `y`, `delete` exits with status 0 and the file-system
state is unchanged. -/
theorem c8_decline_delete (w : World) (host confirm : String)
    (hmem : host ∈ (load_ssh_config w).hostsList)
    (hc : lowerStr confirm ≠ "y") :
    delete_entry w host confirm = ⟨w, 0, []⟩ := by
  simp [delete_entry, hmem, hc]

/-- Witness for C8: declining with answer `N` on existing alias `db1`. -/
theorem c8_decline_delete_witness :
    "db1" ∈ (load_ssh_config sampleWorld).hostsList ∧ lowerStr "N" ≠ "y" ∧
      delete_entry sampleWorld "db1" "N" = ⟨sampleWorld, 0, []⟩ :=
  ⟨by decide, by decide, c8_decline_delete sampleWorld "db1" "N" (by decide) (by decide)⟩

theorem find?_append_of_none {α : Type} (p : α → Bool) (l₁ l₂ : List α)
    (h : l₁.find? p = none) : (l₁ ++ l₂).find? p = l₂.find? p := by
  rw [List.find?_append, h, Option.none_or]

/-- Claim C9: the `port` directive of an added entry holds the string form
of the given port number (integer interpretation happens only at the CLI
boundary, where `argparse` parses the `port` argument as `int`); the
document `add` saves is the loaded one with the new entry appended. -/
theorem c9_port_stored_as_string (w : World) (host hostname user : String)
    (port : Nat) (identity_file : Option String)
    (h : host ∉ (load_ssh_config w).hostsList) :
    lookupDirective
        (((load_ssh_config w).addHost host
            (addParams hostname user port identity_file)).hostData host) "port" =
      some (toString port) ∧
    (add_entry w host hostname user port identity_file).world =
      save_ssh_config w
        ((load_ssh_config w).addHost host (addParams hostname user port identity_file)) := by
  constructor
  · have hnone : (load_ssh_config w).hosts.find? (fun e => e.hostAlias = host) = none := by
      rw [List.find?_eq_none]
      intro e he hme
      exact h (by
        simp only [ConfigDocument.hostsList, List.mem_map]
        exact ⟨e, he, of_decide_eq_true hme⟩)
    simp only [ConfigDocument.addHost, ConfigDocument.hostData,
      find?_append_of_none _ _ _ hnone, List.find?_cons]
    cases identity_file with
    | none => simp [addParams, lookupDirective, List.find?]
    | some f =>
        by_cases hf : f = "" <;> simp [addParams, lookupDirective, List.find?, hf]
  · simp [add_entry, h]

/-- Witness for C9: adding `new1` with port 2200 over `sampleWorld`. -/
theorem c9_port_stored_as_string_witness :
    "new1" ∉ (load_ssh_config sampleWorld).hostsList ∧
      lookupDirective
          (((load_ssh_config sampleWorld).addHost "new1"
              (addParams "10.0.0.9" "bob" 2200 none)).hostData "new1") "port" =
        some "2200" :=
  ⟨by decide,
    (c9_port_stored_as_string sampleWorld "new1" "10.0.0.9" "bob" 2200 none
      (by decide)).1⟩

/-- Claim C10: the query commands `list`, `search` and `show` never change
the file-system state: for every world and every argument the resulting
world is the input world. -/
theorem c10_queries_do_not_write (w : World) (verbose : Bool)
    (query host : String) :
    (list_entries w verbose).world = w ∧ (search_entries w query).world = w ∧
      (show_host w host).world = w := by
  refine ⟨rfl, rfl, ?_⟩
  by_cases h : host ∈ (load_ssh_config w).hostsList <;> simp [show_host, h]

end SshManager

